import Mathlib

/-!
Shallow embedding of the conveyor-belt simulation (`src/main.py`) and proofs
of the specification claims about it.

Modelling conventions:
* Python strings are modelled as `List Char` (`Str`); Python `x in s` on
  strings (substring test) is `List.isInfixOf`; `None` is `Option.none`.
* `Product.get_item_randomly` (`random.choice`) is modelled by an oracle
  `stream : Nat → Option Str` together with a consumption index `randIdx`
  in the simulation state: each belt move consumes one stream element.
* `Worker.assemble`'s wall-clock loop (`while time() < end_assembly`) is
  modelled by an oracle `assembleOracle : Nat → Nat` giving the number of
  loop-guard successes of each successive assembly window; when
  `assembly_time = 0` the guard `time() < time() + 0` is immediately false,
  so the window performs zero ticks independently of the oracle.
* The Python dictionaries `unpicked_components_counter` and
  `finished_products_counter` are association lists built exactly as
  `generate_counter` builds them; `d[k] += 1` is `bump`.
* The class-level attribute `ConveyorBelt.assembled_products_combination`
  is process-global mutable state; it is modelled as the `globalLog` field
  of the simulation state, which persists across belt constructions.
* `raise InconsistentProduct` is modelled with `Except SimError`.
* `time.sleep`, logging, `worker_id` bookkeeping and `belt_speed` (which
  only feeds `sleep` and a log warning) have no effect on the simulation
  values and are omitted.
-/

/-- Python strings as lists of characters. -/
abbrev Str := List Char

/-- The literal dictionary key `'other'` used by `ConveyorBelt.__init__`. -/
def otherKey : Str := ['o', 't', 'h', 'e', 'r']

/-- Runtime fault raised by `Worker.assembled_finished_product`. -/
inductive SimError where
  | InconsistentProduct : SimError
deriving DecidableEq

/-- Return value of `Worker.assemble` (`'finished'` / `'intermediate'`). -/
inductive ProductType where
  | finished : ProductType
  | intermediate : ProductType
deriving DecidableEq

/-- The immutable part of `Product` (`main.py` lines 36-53): the item
catalog, the component list and the finished-product marker.
`item_interval_range` and the unused `assembled_products` list are omitted;
`get_item_randomly` is replaced by the oracle stream in `Ctx`. -/
structure Product where
  items : List (Option Str)
  components : List Str
  finished_product : Str

/-- The mutable state of `ConveyorBelt` (`main.py` lines 96-128):
slots, the length, the remaining iteration budget and the two counters.
`belt_iterations` is an `Int` because the Python counter is decremented
without a lower bound. -/
structure ConveyorBelt where
  slots : List (Option Str)
  belt_length : Nat
  belt_iterations : Int
  unpicked_components_counter : List (Str × Nat)
  finished_products_counter : List (Str × Nat)
deriving DecidableEq

/-- `ConveyorBelt.generate_counter`: a zeroed counter with one key per
datum, in order (`{item: 0 for item in data}`). -/
def generate_counter (data : List Str) : List (Str × Nat) :=
  data.map (fun item => (item, 0))

/-- `ConveyorBelt.__init__`: `[None] * belt_length` slots and counters
keyed by `components + ['other']` and by the finished product. -/
def ConveyorBelt.init (belt_length : Nat) (p : Product) (belt_iterations : Int) :
    ConveyorBelt :=
  { slots := List.replicate belt_length none
    belt_length := belt_length
    belt_iterations := belt_iterations
    unpicked_components_counter := generate_counter (p.components ++ [otherKey])
    finished_products_counter := generate_counter [p.finished_product] }

/-- Python `d[key] += 1` on an association list: increment the first
matching key, leave the list unchanged when the key is absent (the code
only ever increments keys installed by `generate_counter`). -/
def bump : List (Str × Nat) → Str → List (Str × Nat)
  | [], _ => []
  | (k, v) :: rest, key =>
      if k = key then (k, v + 1) :: rest else (k, v) :: bump rest key

/-- Python `sum(d.values())` over a counter. -/
def counterSum (d : List (Str × Nat)) : Nat :=
  (d.map Prod.snd).sum

/-- The two hand registers and status flags of `Worker`
(`main.py` lines 156-178); `worker_id` only feeds log messages. -/
structure Worker where
  left_hand : Option Str
  right_hand : Option Str
  assembly_time : Nat
  holds_finished_product : Bool
deriving DecidableEq

/-- `Worker.__init__`: empty hands, no finished product. -/
def Worker.init (assembly_time : Nat) : Worker :=
  { left_hand := none, right_hand := none
    assembly_time := assembly_time, holds_finished_product := false }

/-- The full mutable simulation state: the belt object, the class-level
`ConveyorBelt.assembled_products_combination` list, and the consumption
indices of the two oracles. -/
structure SimState where
  belt : ConveyorBelt
  globalLog : List (Option Str)
  randIdx : Nat
  assembleIdx : Nat
deriving DecidableEq

/-- Immutable run context: the product plus the two oracles that stand for
`random.choice` and for the wall-clock assembly loop. -/
structure Ctx where
  product : Product
  stream : Nat → Option Str
  assembleOracle : Nat → Nat

/-- Fresh state of `run_simulation`'s inputs: a newly constructed belt
(`ConveyorBelt.init`), with the pre-existing class-level results list
`log` (empty only at process start). -/
def SimState.init (belt_length : Nat) (p : Product) (belt_iterations : Int)
    (log : List (Option Str)) : SimState :=
  { belt := ConveyorBelt.init belt_length p belt_iterations
    globalLog := log, randIdx := 0, assembleIdx := 0 }

/-- Step (1) of `ConveyorBelt.move_belt` (`main.py` lines 130-137): count
the item about to leave the belt — the finished-product counter if it
equals the marker, the component's own counter if it is a tracked
component, otherwise the `'other'` bucket (a `None` slot also lands in
`'other'`, since `None` is neither the marker nor a component). -/
def countLast (ctx : Ctx) (b : ConveyorBelt) : ConveyorBelt :=
  match b.slots.getLastD none with
  | some it =>
      if it = ctx.product.finished_product then
        { b with finished_products_counter := bump b.finished_products_counter it }
      else if it ∈ ctx.product.components then
        { b with unpicked_components_counter := bump b.unpicked_components_counter it }
      else
        { b with unpicked_components_counter := bump b.unpicked_components_counter otherKey }
  | none =>
      { b with unpicked_components_counter := bump b.unpicked_components_counter otherKey }

/-- `ConveyorBelt.move_belt` (`main.py` lines 129-150): count the departing
last item, shift the slots with a freshly generated item at the entry, and
decrement the budget by one. -/
def move_belt (ctx : Ctx) (s : SimState) : SimState :=
  let b := countLast ctx s.belt
  { s with
      belt := { b with
                  slots := ctx.stream s.randIdx :: b.slots.dropLast
                  belt_iterations := b.belt_iterations - 1 }
      randIdx := s.randIdx + 1 }

/-- `ConveyorBelt.remove_component`: empty a slot. -/
def remove_component (s : SimState) (slot_index : Nat) : SimState :=
  { s with belt := { s.belt with slots := s.belt.slots.set slot_index none } }

/-- `Worker.hands_occupied`. -/
def hands_occupied (w : Worker) : Bool :=
  w.left_hand.isSome && w.right_hand.isSome

/-- Python's substring test `needle in hay` on strings: `needle` occurs
contiguously inside `hay`. -/
def substrOf (needle hay : Str) : Bool :=
  decide (needle <:+: hay)

/-- `Worker.pick_item` (`main.py` lines 180-210), returning the updated
worker and the boolean result. Python's substring test `item not in hand`
is `List.isInfixOf`. The final fall-through `return True` (both hands
occupied, unreachable past the `hands_occupied` guard) is kept verbatim. -/
def pick_item (p : Product) (w : Worker) (item : Str) : Worker × Bool :=
  if item = p.finished_product then (w, false)
  else if item ∉ p.components then (w, false)
  else if hands_occupied w then (w, false)
  else
    match w.right_hand with
    | none =>
        if w.holds_finished_product then ({ w with right_hand := some item }, true)
        else
          match w.left_hand with
          | none => ({ w with right_hand := some item }, true)
          | some l =>
              if ¬ substrOf item l then ({ w with right_hand := some item }, true)
              else (w, false)
    | some r =>
        match w.left_hand with
        | none =>
            if ¬ substrOf item r then ({ w with left_hand := some item }, true)
            else (w, false)
        | some _ => (w, true)

/-- `Worker.assembled_finished_product` (`main.py` lines 212-222):
`False` on an empty left hand; `InconsistentProduct` when some character
of the left hand is not a component or characters repeat; otherwise
whether the left-hand length equals the component count. -/
def assembled_finished_product (p : Product) (w : Worker) : Except SimError Bool :=
  match w.left_hand with
  | none => .ok false
  | some l =>
      if (∀ c ∈ l, [c] ∈ p.components) ∧ l.Nodup then
        .ok (decide (l.length = p.components.length))
      else
        .error .InconsistentProduct

/-- `Worker.reset_left_hand`. -/
def reset_left_hand (w : Worker) : Worker :=
  { w with left_hand := none, holds_finished_product := false }

/-- The nested belt-driving loop inside `Worker.assemble`
(`main.py` lines 250-256): up to `k` wall-clock-permitted iterations, each
moving the belt once and breaking as soon as `belt_iterations == 0`. -/
def assembleTicks (ctx : Ctx) : Nat → SimState → SimState
  | 0, s => s
  | k + 1, s =>
      let s := move_belt ctx s
      if s.belt.belt_iterations = 0 then s else assembleTicks ctx k s

/-- `Worker.assemble` (`main.py` lines 234-261): no-op returning `None`
unless both hands are occupied and no finished product is held; otherwise
append the right hand onto the left, clear the right hand, drive the belt
for the wall-clock window, and classify the result by comparing the new
left-hand length with the component count. -/
def assemble (ctx : Ctx) (w : Worker) (s : SimState) :
    Worker × SimState × Option ProductType :=
  if !(hands_occupied w) || w.holds_finished_product then (w, s, none)
  else
    let l := w.left_hand.getD [] ++ w.right_hand.getD []
    let w := { w with left_hand := some l, right_hand := none }
    let k := if w.assembly_time = 0 then 0 else ctx.assembleOracle s.assembleIdx
    let s := assembleTicks ctx k { s with assembleIdx := s.assembleIdx + 1 }
    (w, s,
      some (if l.length = ctx.product.components.length then ProductType.finished
            else ProductType.intermediate))

/-- `Worker.release_finished_product` (`main.py` lines 263-272): fails only
when no finished product is held; otherwise writes the marker into the
slot (whatever it currently holds), appends the left hand to the
class-level results list, and resets the left hand. -/
def release_finished_product (ctx : Ctx) (slot_index : Nat) (w : Worker)
    (s : SimState) : Worker × SimState × Bool :=
  if !w.holds_finished_product then (w, s, false)
  else
    let s :=
      { s with
          belt := { s.belt with
                      slots := s.belt.slots.set slot_index (some ctx.product.finished_product) }
          globalLog := s.globalLog ++ [w.left_hand] }
    (reset_left_hand w, s, true)

/-- The per-worker status refresh at the bottom of the scheduler loop
(`main.py` line 310): `worker.holds_finished_product =
worker.assembled_finished_product()`, which may raise. -/
def updateHolds (p : Product) (w : Worker) : Except SimError Worker :=
  match assembled_finished_product p w with
  | .error e => .error e
  | .ok b => .ok { w with holds_finished_product := b }

/-- The inner `for worker in workers_per_slot` loop of `run_simulation`
(`main.py` lines 293-310). `item` is the slot content read once before
the loop and never refreshed. A failed pick exits the loop (`break`),
skipping the remaining workers and the status refresh. -/
def processWorkers (ctx : Ctx) (i : Nat) (item : Option Str) :
    SimState → List Worker → Except SimError (SimState × List Worker)
  | s, [] => .ok (s, [])
  | s, w :: rest =>
      match assemble ctx w s with
      | (w1, s1, some _) =>
          match updateHolds ctx.product w1 with
          | .error e => .error e
          | .ok w2 =>
              match processWorkers ctx i item s1 rest with
              | .error e => .error e
              | .ok (s2, rest2) => .ok (s2, w2 :: rest2)
      | (w1, s1, none) =>
          match item with
          | none =>
              match release_finished_product ctx i w1 s1 with
              | (w2, s2, _released) =>
                  match updateHolds ctx.product w2 with
                  | .error e => .error e
                  | .ok w3 =>
                      match processWorkers ctx i item s2 rest with
                      | .error e => .error e
                      | .ok (s3, rest3) => .ok (s3, w3 :: rest3)
          | some it =>
              match pick_item ctx.product w1 it with
              | (w2, false) => .ok (s1, w2 :: rest)
              | (w2, true) =>
                  let s2 := remove_component s1 i
                  match updateHolds ctx.product w2 with
                  | .error e => .error e
                  | .ok w3 =>
                      match processWorkers ctx i item s2 rest with
                      | .error e => .error e
                      | .ok (s3, rest3) => .ok (s3, w3 :: rest3)

/-- The `for i in range(belt.belt_length)` loop of `run_simulation`
(`main.py` lines 284-310): before each slot, break when the budget hit
exactly zero; otherwise read the slot item once and run the worker loop. -/
def processIdxs (ctx : Ctx) :
    List Nat → SimState → List (List Worker) → Except SimError (SimState × List (List Worker))
  | [], s, ws => .ok (s, ws)
  | i :: rest, s, ws =>
      if s.belt.belt_iterations = 0 then .ok (s, ws)
      else
        match processWorkers ctx i (s.belt.slots.getD i none) s (ws.getD i []) with
        | .error e => .error e
        | .ok (s1, slotWorkers) => processIdxs ctx rest s1 (ws.set i slotWorkers)

/-- The outer `while belt.belt_iterations > 0` loop of `run_simulation`
(`main.py` lines 281-311), with explicit fuel. The boolean result is
`true` exactly when the while-condition became false within the fuel,
i.e. the run genuinely completed. -/
def runLoop (ctx : Ctx) :
    Nat → SimState → List (List Worker) → Except SimError (SimState × List (List Worker) × Bool)
  | 0, s, ws => .ok (s, ws, false)
  | fuel + 1, s, ws =>
      if s.belt.belt_iterations > 0 then
        let s1 := move_belt ctx s
        match processIdxs ctx (List.range s1.belt.belt_length) s1 ws with
        | .error e => .error e
        | .ok (s2, ws2) => runLoop ctx fuel s2 ws2
      else .ok (s, ws, true)

/-- `run_simulation` (`main.py` lines 275-313): run the loop and return
the class-level `ConveyorBelt.assembled_products_combination` list,
together with the final state. -/
def run_simulation (ctx : Ctx) (fuel : Nat) (s : SimState) (ws : List (List Worker)) :
    Except SimError (List (Option Str) × SimState × List (List Worker) × Bool) :=
  match runLoop ctx fuel s ws with
  | .error e => .error e
  | .ok (s', ws', done) => .ok (s'.globalLog, s', ws', done)

/-! Concrete fixtures used by witnesses and counterexamples. They mirror
the configurations used by the repository's own tests and `__main__`
block: components `A`, `B`, `C` (or `A`, `B`), finished product `P`. -/

/-- The test configuration's product with components `A`, `B`, `C`. -/
def pABC : Product :=
  { items := [some ['A'], some ['B'], some ['C'], some ['D'], none]
    components := [['A'], ['B'], ['C']]
    finished_product := ['P'] }

/-- A two-component product (`A`, `B`) used for short end-to-end runs. -/
def pAB : Product :=
  { items := [some ['A'], some ['B'], none]
    components := [['A'], ['B']]
    finished_product := ['P'] }

/-- Context whose belt only ever produces empty slots. -/
def ctxEmpty : Ctx :=
  { product := pABC, stream := fun _ => none, assembleOracle := fun _ => 0 }

/-- Context injecting a single `A` on the first move and nothing after. -/
def ctxOneA : Ctx :=
  { product := pABC
    stream := fun n => if n = 0 then some ['A'] else none
    assembleOracle := fun _ => 0 }

/-- Context injecting `A`, `B`, `C` on the first three moves; the assembly
oracle allows three wall-clock loop iterations per window (the behaviour
of `assembly_time = 3` with `belt_speed = 1`). -/
def ctxABC3 : Ctx :=
  { product := pABC
    stream := fun n =>
      if n = 0 then some ['A'] else if n = 1 then some ['B']
      else if n = 2 then some ['C'] else none
    assembleOracle := fun _ => 3 }

/-- Context over `pAB` injecting `A` then `B` then nothing, with
instantaneous assembly (`assembly_time = 0`). -/
def ctxAB : Ctx :=
  { product := pAB
    stream := fun n => if n = 0 then some ['A'] else if n = 1 then some ['B'] else none
    assembleOracle := fun _ => 0 }

/-- A worker holding an assembled finished product `BA` in its left hand. -/
def wHolding : Worker :=
  { left_hand := some ['B', 'A'], right_hand := none
    assembly_time := 0, holds_finished_product := true }

/-- A simulation state over `pAB` whose single slot is occupied by an `A`. -/
def sOccupied : SimState :=
  { belt := { slots := [some ['A']]
              belt_length := 1
              belt_iterations := 5
              unpicked_components_counter := generate_counter (pAB.components ++ [otherKey])
              finished_products_counter := generate_counter [pAB.finished_product] }
    globalLog := [], randIdx := 0, assembleIdx := 0 }

/-- The final state of a two-tick run of `run_simulation` over `ctxEmpty`
with one slot and no workers: both departing slots were empty, so the
`'other'` bucket counted both ticks. -/
def sEmptyRun : SimState :=
  { belt := { slots := [none]
              belt_length := 1
              belt_iterations := 0
              unpicked_components_counter :=
                [(['A'], 0), (['B'], 0), (['C'], 0), (otherKey, 2)]
              finished_products_counter := [(['P'], 0)] }
    globalLog := [], randIdx := 2, assembleIdx := 0 }

/-! Counter bookkeeping: the quantity `belt_iterations + Σ counters` is
preserved by every operation of the simulation, which is the heart of the
tick-accounting property. -/

/-- Sum of all unpicked-component counters (including `'other'`) plus the
finished-product counter of a belt. -/
def totalCount (b : ConveyorBelt) : Nat :=
  counterSum b.unpicked_components_counter + counterSum b.finished_products_counter

/-- The conserved quantity: remaining budget plus total counted events. -/
def phi (s : SimState) : Int :=
  s.belt.belt_iterations + (totalCount s.belt : Int)

/-- The counter dictionaries contain the keys that `move_belt` increments:
every component, the `'other'` bucket, and the finished-product marker.
`ConveyorBelt.__init__` establishes this and no operation removes keys. -/
def CountersWF (p : Product) (b : ConveyorBelt) : Prop :=
  (∀ c ∈ p.components, c ∈ b.unpicked_components_counter.map Prod.fst) ∧
  otherKey ∈ b.unpicked_components_counter.map Prod.fst ∧
  p.finished_product ∈ b.finished_products_counter.map Prod.fst

/-- Preservation relation between simulation states: it bundles the
conserved-quantity part (under counter well-formedness, `phi` is
unchanged and well-formedness is kept) with monotonicity of the
class-level results list (it only ever grows by appending). -/
def Pres (p : Product) (s s' : SimState) : Prop :=
  (CountersWF p s.belt → phi s' = phi s ∧ CountersWF p s'.belt) ∧
  ∃ t, s'.globalLog = s.globalLog ++ t

-- Keys are untouched by an increment.
lemma bump_map_fst (d : List (Str × Nat)) (key : Str) :
    (bump d key).map Prod.fst = d.map Prod.fst := by
  induction d with
  | nil => rfl
  | cons hd tl ih =>
      obtain ⟨k, v⟩ := hd
      by_cases h : k = key <;> simp [bump, h, ih]

-- Incrementing a present key raises the value sum by exactly one.
lemma counterSum_bump (d : List (Str × Nat)) (key : Str)
    (h : key ∈ d.map Prod.fst) : counterSum (bump d key) = counterSum d + 1 := by
  induction d with
  | nil => simp at h
  | cons hd tl ih =>
      obtain ⟨k, v⟩ := hd
      by_cases hk : k = key
      · subst hk
        simp [bump, counterSum]
        omega
      · have h' := h
        simp only [List.map_cons, List.mem_cons] at h'
        have hmem : key ∈ tl.map Prod.fst := by
          rcases h' with h1 | h1
          · exact absurd h1.symm hk
          · exact h1
        have htl := ih hmem
        simp only [bump, if_neg hk, counterSum, List.map_cons, List.sum_cons] at htl ⊢
        omega

-- A freshly generated counter has keys `data` and value sum zero.
lemma generate_counter_map_fst (data : List Str) :
    (generate_counter data).map Prod.fst = data := by
  induction data with
  | nil => rfl
  | cons hd tl ih => simp only [generate_counter, List.map_cons] at ih ⊢; rw [ih]

lemma counterSum_generate (data : List Str) :
    counterSum (generate_counter data) = 0 := by
  induction data with
  | nil => rfl
  | cons hd tl ih =>
      simp only [generate_counter, counterSum, List.map_cons, List.sum_cons] at ih ⊢
      omega

lemma ConveyorBelt.init_wf (n : Nat) (p : Product) (B : Int) :
    CountersWF p (ConveyorBelt.init n p B) := by
  refine ⟨fun c hc => ?_, ?_, ?_⟩
  · simp only [ConveyorBelt.init]
    rw [generate_counter_map_fst]
    exact List.mem_append_left _ hc
  · simp only [ConveyorBelt.init]
    rw [generate_counter_map_fst]
    simp
  · simp only [ConveyorBelt.init]
    rw [generate_counter_map_fst]
    simp

lemma totalCount_init (n : Nat) (p : Product) (B : Int) :
    totalCount (ConveyorBelt.init n p B) = 0 := by
  simp [totalCount, ConveyorBelt.init, counterSum_generate]

lemma Pres.rfl (p : Product) (s : SimState) : Pres p s s :=
  ⟨fun h => ⟨Eq.refl _, h⟩, [], by simp⟩

lemma Pres.trans {p : Product} {s₁ s₂ s₃ : SimState}
    (h12 : Pres p s₁ s₂) (h23 : Pres p s₂ s₃) : Pres p s₁ s₃ := by
  obtain ⟨f12, t12, ht12⟩ := h12
  obtain ⟨f23, t23, ht23⟩ := h23
  refine ⟨fun hwf => ?_, t12 ++ t23, ?_⟩
  · obtain ⟨hphi12, hwf2⟩ := f12 hwf
    obtain ⟨hphi23, hwf3⟩ := f23 hwf2
    exact ⟨hphi23.trans hphi12, hwf3⟩
  · rw [ht23, ht12, List.append_assoc]

-- A state change that keeps the belt and the results list is preserving.
lemma Pres.of_same {p : Product} {s s' : SimState}
    (hb : s'.belt = s.belt) (hl : s'.globalLog = s.globalLog) : Pres p s s' := by
  refine ⟨fun h => ⟨?_, ?_⟩, [], by simp [hl]⟩
  · simp [phi, hb]
  · rw [hb]; exact h

-- Counting the departing item: counters keep their keys and the total
-- grows by exactly one; slots, length and budget are untouched.
lemma countLast_belt_iterations (ctx : Ctx) (b : ConveyorBelt) :
    (countLast ctx b).belt_iterations = b.belt_iterations := by
  unfold countLast
  rcases b.slots.getLastD none with _ | it
  · rfl
  · dsimp only
    split_ifs <;> rfl

lemma countLast_slots (ctx : Ctx) (b : ConveyorBelt) :
    (countLast ctx b).slots = b.slots := by
  unfold countLast
  rcases b.slots.getLastD none with _ | it
  · rfl
  · dsimp only
    split_ifs <;> rfl

lemma countLast_total (ctx : Ctx) (b : ConveyorBelt)
    (h : CountersWF ctx.product b) :
    totalCount (countLast ctx b) = totalCount b + 1 := by
  obtain ⟨hcomp, hother, hfin⟩ := h
  unfold countLast
  rcases b.slots.getLastD none with _ | it
  · simp only [totalCount]
    rw [counterSum_bump _ _ hother]
    omega
  · dsimp only
    split_ifs with h1 h2
    · simp only [totalCount]
      rw [h1, counterSum_bump _ _ hfin]
      omega
    · simp only [totalCount]
      rw [counterSum_bump _ _ (hcomp it h2)]
      omega
    · simp only [totalCount]
      rw [counterSum_bump _ _ hother]
      omega

lemma countLast_wf (ctx : Ctx) (b : ConveyorBelt)
    (h : CountersWF ctx.product b) : CountersWF ctx.product (countLast ctx b) := by
  obtain ⟨hcomp, hother, hfin⟩ := h
  unfold countLast
  rcases b.slots.getLastD none with _ | it
  · exact ⟨fun c hc => by simpa [bump_map_fst] using hcomp c hc,
      by simpa [bump_map_fst] using hother, hfin⟩
  · dsimp only
    split_ifs with h1 h2
    · exact ⟨hcomp, hother, by simpa [bump_map_fst] using hfin⟩
    · exact ⟨fun c hc => by simpa [bump_map_fst] using hcomp c hc,
        by simpa [bump_map_fst] using hother, hfin⟩
    · exact ⟨fun c hc => by simpa [bump_map_fst] using hcomp c hc,
        by simpa [bump_map_fst] using hother, hfin⟩

-- Moving the belt preserves the conserved quantity: the budget drops by
-- one and exactly one counter is incremented.
lemma move_belt_pres (ctx : Ctx) (s : SimState) :
    Pres ctx.product s (move_belt ctx s) := by
  refine ⟨fun hwf => ⟨?_, ?_⟩, [], by simp [move_belt]⟩
  · have htot := countLast_total ctx s.belt hwf
    simp only [move_belt, phi, totalCount] at *
    rw [countLast_belt_iterations]
    push_cast
    omega
  · have := countLast_wf ctx s.belt hwf
    obtain ⟨hcomp, hother, hfin⟩ := this
    exact ⟨hcomp, hother, hfin⟩

lemma assembleTicks_pres (ctx : Ctx) (k : Nat) (s : SimState) :
    Pres ctx.product s (assembleTicks ctx k s) := by
  induction k generalizing s with
  | zero => exact Pres.rfl _ _
  | succ k ih =>
      rw [assembleTicks]
      split_ifs
      · exact move_belt_pres ctx s
      · exact (move_belt_pres ctx s).trans (ih _)

lemma assemble_pres (ctx : Ctx) (w : Worker) (s : SimState) :
    Pres ctx.product s (assemble ctx w s).2.1 := by
  unfold assemble
  split_ifs
  · exact Pres.rfl _ _
  · exact Pres.trans
      (@Pres.of_same ctx.product s { s with assembleIdx := s.assembleIdx + 1 } rfl rfl)
      (assembleTicks_pres ctx _ _)

lemma release_pres (ctx : Ctx) (i : Nat) (w : Worker) (s : SimState) :
    Pres ctx.product s (release_finished_product ctx i w s).2.1 := by
  unfold release_finished_product
  split_ifs
  · exact Pres.rfl _ _
  · refine ⟨fun h => ⟨by simp [phi, totalCount], ?_⟩, [w.left_hand], by simp⟩
    obtain ⟨hcomp, hother, hfin⟩ := h
    exact ⟨hcomp, hother, hfin⟩

lemma remove_component_pres (p : Product) (s : SimState) (i : Nat) :
    Pres p s (remove_component s i) := by
  refine ⟨fun h => ⟨by simp [phi, totalCount, remove_component], ?_⟩, [], by simp [remove_component]⟩
  obtain ⟨hcomp, hother, hfin⟩ := h
  exact ⟨hcomp, hother, hfin⟩

-- One slot's worker loop preserves the conserved quantity and only
-- appends to the results list, whatever path each worker takes.
lemma processWorkers_pres (ctx : Ctx) (i : Nat) (item : Option Str) :
    ∀ (ws : List Worker) (s s' : SimState) (ws' : List Worker),
      processWorkers ctx i item s ws = .ok (s', ws') → Pres ctx.product s s' := by
  intro ws
  induction ws with
  | nil =>
      intro s s' ws' h
      rw [processWorkers] at h
      simp only [Except.ok.injEq, Prod.mk.injEq] at h
      obtain ⟨h1, _⟩ := h
      rw [← h1]
      exact Pres.rfl _ _
  | cons w rest ih =>
      intro s s' ws' h
      rw [processWorkers] at h
      split at h
      · -- assemble returned a product type
        next w1 s1 pt ha =>
          have hpres1 : Pres ctx.product s s1 := by
            have hx := assemble_pres ctx w s
            rw [ha] at hx
            exact hx
          split at h
          · exact Except.noConfusion h
          · next w2 hu =>
              split at h
              · exact Except.noConfusion h
              · next s2 rest2 hr =>
                  simp only [Except.ok.injEq, Prod.mk.injEq] at h
                  obtain ⟨h1, _⟩ := h
                  rw [← h1]
                  exact hpres1.trans (ih s1 s2 rest2 hr)
      · -- assemble was a no-op
        next w1 s1 ha =>
          have hpres1 : Pres ctx.product s s1 := by
            have hx := assemble_pres ctx w s
            rw [ha] at hx
            exact hx
          split at h
          · -- empty slot: release path
            split at h
            next w2 s2 rel hrel =>
              have hpres2 : Pres ctx.product s1 s2 := by
                have hx := release_pres ctx i w1 s1
                rw [hrel] at hx
                exact hx
              split at h
              · exact Except.noConfusion h
              · next w3 hu =>
                  split at h
                  · exact Except.noConfusion h
                  · next s3 rest3 hr =>
                      simp only [Except.ok.injEq, Prod.mk.injEq] at h
                      obtain ⟨h1, _⟩ := h
                      rw [← h1]
                      exact (hpres1.trans hpres2).trans (ih s2 s3 rest3 hr)
          · -- occupied slot: pick path
            next it =>
              split at h
              · -- failed pick: break
                simp only [Except.ok.injEq, Prod.mk.injEq] at h
                obtain ⟨h1, _⟩ := h
                rw [← h1]
                exact hpres1
              · -- successful pick
                next w2 hpk =>
                  dsimp only at h
                  split at h
                  · exact Except.noConfusion h
                  · next w3 hu =>
                      split at h
                      · exact Except.noConfusion h
                      · next s3 rest3 hr =>
                          simp only [Except.ok.injEq, Prod.mk.injEq] at h
                          obtain ⟨h1, _⟩ := h
                          rw [← h1]
                          exact (hpres1.trans
                            (remove_component_pres ctx.product s1 i)).trans
                            (ih _ s3 rest3 hr)

-- The per-tick slot sweep preserves the conserved quantity.
lemma processIdxs_pres (ctx : Ctx) :
    ∀ (idxs : List Nat) (s s' : SimState) (ws ws' : List (List Worker)),
      processIdxs ctx idxs s ws = .ok (s', ws') → Pres ctx.product s s' := by
  intro idxs
  induction idxs with
  | nil =>
      intro s s' ws ws' h
      rw [processIdxs] at h
      simp only [Except.ok.injEq, Prod.mk.injEq] at h
      obtain ⟨h1, _⟩ := h
      rw [← h1]
      exact Pres.rfl _ _
  | cons i rest ih =>
      intro s s' ws ws' h
      rw [processIdxs] at h
      split_ifs at h
      · simp only [Except.ok.injEq, Prod.mk.injEq] at h
        obtain ⟨h1, _⟩ := h
        rw [← h1]
        exact Pres.rfl _ _
      · split at h
        · exact Except.noConfusion h
        · next s1 sw hw =>
            exact (processWorkers_pres ctx i _ _ _ _ _ hw).trans
              (ih s1 s' (ws.set i sw) ws' h)

-- The whole run preserves the conserved quantity and only appends to the
-- results list.
lemma runLoop_pres (ctx : Ctx) :
    ∀ (fuel : Nat) (s s' : SimState) (ws ws' : List (List Worker)) (d : Bool),
      runLoop ctx fuel s ws = .ok (s', ws', d) → Pres ctx.product s s' := by
  intro fuel
  induction fuel with
  | zero =>
      intro s s' ws ws' d h
      rw [runLoop] at h
      simp only [Except.ok.injEq, Prod.mk.injEq] at h
      obtain ⟨h1, _⟩ := h
      rw [← h1]
      exact Pres.rfl _ _
  | succ fuel ih =>
      intro s s' ws ws' d h
      rw [runLoop] at h
      split_ifs at h
      · dsimp only at h
        split at h
        · exact Except.noConfusion h
        · next s2 ws2 hp =>
            exact ((move_belt_pres ctx s).trans
              (processIdxs_pres ctx _ _ _ _ _ hp)).trans (ih s2 s' ws2 ws' d h)
      · simp only [Except.ok.injEq, Prod.mk.injEq] at h
        obtain ⟨h1, _⟩ := h
        rw [← h1]
        exact Pres.rfl _ _

/-- C1: for every completed run of `run_simulation` started on a freshly
constructed belt, the number of ticks consumed from the `belt_iterations`
budget equals the sum over all unpicked-component counters (including the
`'other'` bucket) plus the finished-product counter: every belt-exit event
is counted exactly once per tick, with no double counting even when nested
ticking occurs during an assembly wait. -/
theorem run_simulation_tick_accounting (ctx : Ctx) (fuel n : Nat) (B : Int)
    (log : List (Option Str)) (ws : List (List Worker))
    (res : List (Option Str)) (s' : SimState) (ws' : List (List Worker))
    (hn : 0 < n)
    (h : run_simulation ctx fuel (SimState.init n ctx.product B log) ws
          = .ok (res, s', ws', true)) :
    B - s'.belt.belt_iterations = (totalCount s'.belt : Int) := by
  unfold run_simulation at h
  split at h
  · exact Except.noConfusion h
  · next s1 ws1 d1 hr =>
      simp only [Except.ok.injEq, Prod.mk.injEq] at h
      obtain ⟨_, hs, _, _⟩ := h
      have hpres := runLoop_pres ctx fuel _ s1 ws ws1 d1 hr
      have hwf : CountersWF ctx.product (SimState.init n ctx.product B log).belt :=
        ConveyorBelt.init_wf n ctx.product B
      obtain ⟨hphi, _⟩ := hpres.1 hwf
      have hinit : phi (SimState.init n ctx.product B log) = B := by
        simp [phi, SimState.init, totalCount_init, ConveyorBelt.init, totalCount,
          counterSum_generate]
      rw [hinit] at hphi
      rw [← hs]
      simp only [phi] at hphi
      omega

/-- Witness for C1: a two-tick run over an empty stream with no workers
completes with both ticks counted in the `'other'` bucket. -/
theorem run_simulation_tick_accounting_witness :
    0 < 1 ∧ (2 : Int) - sEmptyRun.belt.belt_iterations = (totalCount sEmptyRun.belt : Int) :=
  ⟨by decide,
   run_simulation_tick_accounting ctxEmpty 3 1 2 [] [[]] [] sEmptyRun [[]]
     (by decide) (by rfl)⟩

/-- Counterexample to C6: the results list is the class-level attribute
`ConveyorBelt.assembled_products_combination`, shared across belts. A
first run on a fresh belt returns `[BA]`; a second run on an independently
constructed fresh belt (but in the same process, so with the class-level
list as the first run left it) returns a list that still contains the
first run's combination — not an independent sequence. -/
theorem second_run_returns_first_run_results :
    (run_simulation ctxAB 6 (SimState.init 1 pAB 5 []) [[Worker.init 0]]).map
        (fun r => (r.1, r.2.2.2)) = .ok ([some ['B', 'A']], true) ∧
    (run_simulation ctxAB 6 (SimState.init 1 pAB 5 [some ['B', 'A']]) [[Worker.init 0]]).map
        (fun r => (r.1, r.2.2.2)) = .ok ([some ['B', 'A'], some ['B', 'A']], true) ∧
    some ['B', 'A'] ∈ [some ['B', 'A'], some ['B', 'A']] :=
  ⟨by rfl, by rfl, by decide⟩

/-- C6 (amended): `run_simulation` returns the class-level results list
shared by all belts; a run only ever appends to it, so the return value
of a later run extends the list the process accumulated before it (the
earlier run's combinations are a prefix of the later run's return value),
rather than being independent of it. -/
theorem run_simulation_returns_shared_log (ctx : Ctx) (fuel : Nat) (s : SimState)
    (ws : List (List Worker)) (res : List (Option Str)) (s' : SimState)
    (ws' : List (List Worker)) (d : Bool)
    (h : run_simulation ctx fuel s ws = .ok (res, s', ws', d)) :
    ∃ t, res = s.globalLog ++ t := by
  unfold run_simulation at h
  split at h
  · exact Except.noConfusion h
  · next s1 ws1 d1 hr =>
      simp only [Except.ok.injEq, Prod.mk.injEq] at h
      obtain ⟨hres, _, _, _⟩ := h
      obtain ⟨_, t, ht⟩ := runLoop_pres ctx fuel s s1 ws ws1 d1 hr
      exact ⟨t, by rw [← hres]; exact ht⟩

/-- Witness for C6 (amended): an immediate (zero-fuel) run returns exactly
the shared list it started with. -/
theorem run_simulation_returns_shared_log_witness :
    ∃ t, [some ['B', 'A']] = [some ['B', 'A']] ++ t :=
  run_simulation_returns_shared_log ctxAB 0 (SimState.init 1 pAB 5 [some ['B', 'A']]) []
    [some ['B', 'A']] (SimState.init 1 pAB 5 [some ['B', 'A']]) [] false (by rfl)

/-- Counterexample to C2: `release_finished_product` performs no emptiness
check on the target slot. With the slot occupied by a component and the
worker holding a finished product, the call succeeds (returns `True`),
overwrites the slot with the marker and logs the combination, where the
claim demands a no-op returning failure. -/
theorem release_ignores_slot_occupancy :
    sOccupied.belt.slots.getD 0 none = some ['A'] ∧
    wHolding.holds_finished_product = true ∧
    (release_finished_product ctxAB 0 wHolding sOccupied).2.2 = true ∧
    (release_finished_product ctxAB 0 wHolding sOccupied).2.1.belt.slots = [some ['P']] ∧
    (release_finished_product ctxAB 0 wHolding sOccupied).2.1.globalLog = [some ['B', 'A']] :=
  ⟨rfl, rfl, rfl, rfl, rfl⟩

/-- C2 (amended): `release_finished_product` succeeds exactly when the
worker holds a finished product, with no check of the target slot. On
success it writes the finished-product marker into the slot (overwriting
any occupant), appends the exact left-hand value to the shared results
list, and clears only the left hand (the right hand is untouched). When
the worker does not hold a finished product it is a no-op returning
failure. -/
theorem release_finished_product_characterization (ctx : Ctx) (i : Nat)
    (w : Worker) (s : SimState) :
    ((release_finished_product ctx i w s).2.2 = w.holds_finished_product) ∧
    (w.holds_finished_product = false →
        release_finished_product ctx i w s = (w, s, false)) ∧
    (w.holds_finished_product = true →
        release_finished_product ctx i w s =
          (reset_left_hand w,
           { s with
               belt := { s.belt with
                           slots := s.belt.slots.set i (some ctx.product.finished_product) }
               globalLog := s.globalLog ++ [w.left_hand] },
           true)) := by
  rcases hw : w.holds_finished_product <;>
    simp [release_finished_product, hw]

/-- Witness for C2 (amended): the success result equals the holding flag
at a concrete worker and state. -/
theorem release_finished_product_characterization_witness :
    (release_finished_product ctxAB 0 wHolding sOccupied).2.2 =
      wHolding.holds_finished_product :=
  (release_finished_product_characterization ctxAB 0 wHolding sOccupied).1

/-- C3 (code behaviour at the failing input): the scheduler reads a slot's
surface item once per tick and never refreshes it. With two workers at one
slot and a single `A` injected (the stream yields `A` once and empty slots
afterwards), the first worker picks the `A` and clears the slot, yet the
second worker is offered the same cached item and picks it too: after a
completed run both workers hold `A` in the right hand, although only one
`A` ever existed on the belt. -/
theorem co_located_workers_double_pick :
    ctxOneA.stream 0 = some ['A'] ∧ ctxOneA.stream 1 = none ∧
    (runLoop ctxOneA 3 (SimState.init 1 pABC 2 []) [[Worker.init 3, Worker.init 3]]).map
        (fun r => (((r.2.1.getD 0 []).getD 0 (Worker.init 0)).right_hand,
                   ((r.2.1.getD 0 []).getD 1 (Worker.init 0)).right_hand, r.2.2)) =
      .ok (some ['A'], some ['A'], true) :=
  ⟨rfl, rfl, by rfl⟩

/-- C4 (code behaviour at the failing input): the nested ticking inside
`Worker.assemble` only stops when the budget equals exactly zero. With two
workers at one slot, the first worker's assembly window drives the budget
to zero, and the second worker then starts its own assembly window at
budget zero: its nested ticks decrement the counter to `-1`, `-2`, `-3`
without ever hitting the `== 0` break. The completed run ends with a
negative remaining budget, the belt having advanced 7 times against a
budget of 4. -/
theorem nested_ticks_overdraw_budget :
    (runLoop ctxABC3 5 (SimState.init 1 pABC 4 []) [[Worker.init 3, Worker.init 3]]).map
        (fun r => (r.1.belt.belt_iterations, r.2.2)) = .ok (-3, true) ∧
    (-3 : Int) < 0 ∧
    (4 : Int) - (-3) = 7 ∧ (4 : Int) < 7 :=
  ⟨by rfl, by decide, by decide, by decide⟩

/-- C7: the validity check `Worker.assembled_finished_product` on an
occupied left hand returns `True` exactly when the left-hand length equals
the configured component count, provided every character is a recognized
component and none repeats; whenever some character is not a recognized
component or some character repeats, it raises `InconsistentProduct`
rather than returning a result. -/
theorem assembled_finished_product_spec (p : Product) (w : Worker) (l : Str)
    (hl : w.left_hand = some l) :
    ((∀ c ∈ l, [c] ∈ p.components) ∧ l.Nodup →
        assembled_finished_product p w =
          .ok (decide (l.length = p.components.length))) ∧
    (((∃ c ∈ l, [c] ∉ p.components) ∨ ¬ l.Nodup) →
        assembled_finished_product p w = .error .InconsistentProduct) := by
  obtain ⟨lh, rh, t, f⟩ := w
  simp only at hl
  subst hl
  constructor
  · intro hvalid
    simp only [assembled_finished_product]
    rw [if_pos hvalid]
  · intro hbad
    simp only [assembled_finished_product]
    rw [if_neg]
    intro hgood
    rcases hbad with ⟨c, hc, hnc⟩ | hnd
    · exact hnc (hgood.1 c hc)
    · exact hnd hgood.2

/-- Witness for C7, at the spec's example inputs over components
`{A, B, C}`: `ABC` is accepted as finished, while `ABD` (foreign
character), `AAB` (repeat) and `ABCA` (repeat) raise
`InconsistentProduct`. -/
theorem assembled_finished_product_spec_witness :
    assembled_finished_product pABC
        { left_hand := some ['A', 'B', 'C'], right_hand := none
          assembly_time := 0, holds_finished_product := false } = .ok true ∧
    assembled_finished_product pABC
        { left_hand := some ['A', 'B', 'D'], right_hand := none
          assembly_time := 0, holds_finished_product := false } =
      .error .InconsistentProduct ∧
    assembled_finished_product pABC
        { left_hand := some ['A', 'A', 'B'], right_hand := none
          assembly_time := 0, holds_finished_product := false } =
      .error .InconsistentProduct ∧
    assembled_finished_product pABC
        { left_hand := some ['A', 'B', 'C', 'A'], right_hand := none
          assembly_time := 0, holds_finished_product := false } =
      .error .InconsistentProduct := by
  refine ⟨?_, ?_, by rfl, by rfl⟩
  · have h := (assembled_finished_product_spec pABC
      { left_hand := some ['A', 'B', 'C'], right_hand := none
        assembly_time := 0, holds_finished_product := false } ['A', 'B', 'C'] rfl).1
      (by decide)
    simpa using h
  · exact (assembled_finished_product_spec pABC
      { left_hand := some ['A', 'B', 'D'], right_hand := none
        assembly_time := 0, holds_finished_product := false } ['A', 'B', 'D'] rfl).2
      (by decide)

/-- C9: `Worker.pick_item` refuses the finished-product marker, any item
outside the component set, and any offer while both hands are occupied:
in each case it returns failure and leaves the worker (both hands)
unchanged. -/
theorem pick_item_rejects (p : Product) (w : Worker) (item : Str)
    (h : item = p.finished_product ∨ item ∉ p.components ∨ hands_occupied w = true) :
    pick_item p w item = (w, false) := by
  unfold pick_item
  rcases h with h | h | h
  · rw [if_pos h]
  · by_cases h1 : item = p.finished_product
    · rw [if_pos h1]
    · rw [if_neg h1, if_pos h]
  · by_cases h1 : item = p.finished_product
    · rw [if_pos h1]
    · by_cases h2 : item ∉ p.components
      · rw [if_neg h1, if_pos h2]
      · rw [if_neg h1, if_neg h2, if_pos h]

/-- Witness for C9: a fresh worker refuses the finished-product marker. -/
theorem pick_item_rejects_witness :
    (['P'] = pABC.finished_product ∨ ['P'] ∉ pABC.components ∨
      hands_occupied (Worker.init 3) = true) ∧
    pick_item pABC (Worker.init 3) ['P'] = (Worker.init 3, false) :=
  ⟨by decide, pick_item_rejects pABC (Worker.init 3) ['P'] (by decide)⟩

/-- C8: with both hands occupied and no finished product held,
`Worker.assemble` appends the right hand's unit onto the left hand's
accumulation (the left hand is always the accumulator), clears the right
hand, and classifies the outcome as finished exactly when the resulting
left-hand length equals the component count, and as intermediate
otherwise. -/
theorem assemble_spec (ctx : Ctx) (s : SimState) (w : Worker) (l r : Str)
    (hl : w.left_hand = some l) (hr : w.right_hand = some r)
    (hf : w.holds_finished_product = false) :
    (assemble ctx w s).1.left_hand = some (l ++ r) ∧
    (assemble ctx w s).1.right_hand = none ∧
    ((assemble ctx w s).2.2 = some ProductType.finished ↔
        (l ++ r).length = ctx.product.components.length) ∧
    ((assemble ctx w s).2.2 = some ProductType.intermediate ↔
        (l ++ r).length ≠ ctx.product.components.length) := by
  obtain ⟨lh, rh, t, f⟩ := w
  simp only at hl hr hf
  subst hl
  subst hr
  subst hf
  refine ⟨rfl, rfl, ?_, ?_⟩ <;>
    by_cases hc : (l ++ r).length = ctx.product.components.length <;>
      simp [assemble, hands_occupied, hc]

/-- Witness for C8, at the spec's example: from hands `(A, B)` one
`assemble` yields left `AB` with the right hand cleared and an
intermediate classification; after a later pick of `C` and another
`assemble`, the left hand holds `ABC`, the outcome is finished, and the
validity check accepts it. -/
theorem assemble_spec_witness :
    (assemble ctxEmpty
        { left_hand := some ['A'], right_hand := some ['B']
          assembly_time := 0, holds_finished_product := false }
        (SimState.init 1 pABC 5 [])).1.left_hand = some ['A', 'B'] ∧
    (assemble ctxEmpty
        { left_hand := some ['A'], right_hand := some ['B']
          assembly_time := 0, holds_finished_product := false }
        (SimState.init 1 pABC 5 [])).1.right_hand = none ∧
    (assemble ctxEmpty
        { left_hand := some ['A'], right_hand := some ['B']
          assembly_time := 0, holds_finished_product := false }
        (SimState.init 1 pABC 5 [])).2.2 = some ProductType.intermediate ∧
    pick_item pABC
        { left_hand := some ['A', 'B'], right_hand := none
          assembly_time := 0, holds_finished_product := false } ['C'] =
      ({ left_hand := some ['A', 'B'], right_hand := some ['C']
         assembly_time := 0, holds_finished_product := false }, true) ∧
    (assemble ctxEmpty
        { left_hand := some ['A', 'B'], right_hand := some ['C']
          assembly_time := 0, holds_finished_product := false }
        (SimState.init 1 pABC 5 [])).1.left_hand = some ['A', 'B', 'C'] ∧
    (assemble ctxEmpty
        { left_hand := some ['A', 'B'], right_hand := some ['C']
          assembly_time := 0, holds_finished_product := false }
        (SimState.init 1 pABC 5 [])).2.2 = some ProductType.finished ∧
    assembled_finished_product pABC
        { left_hand := some ['A', 'B', 'C'], right_hand := none
          assembly_time := 0, holds_finished_product := false } = .ok true := by
  refine ⟨?_, ?_, by rfl, by rfl, ?_, by rfl, by rfl⟩
  · exact (assemble_spec ctxEmpty (SimState.init 1 pABC 5 [])
      { left_hand := some ['A'], right_hand := some ['B']
        assembly_time := 0, holds_finished_product := false }
      ['A'] ['B'] rfl rfl rfl).1
  · exact (assemble_spec ctxEmpty (SimState.init 1 pABC 5 [])
      { left_hand := some ['A'], right_hand := some ['B']
        assembly_time := 0, holds_finished_product := false }
      ['A'] ['B'] rfl rfl rfl).2.1
  · exact (assemble_spec ctxEmpty (SimState.init 1 pABC 5 [])
      { left_hand := some ['A', 'B'], right_hand := some ['C']
        assembly_time := 0, holds_finished_product := false }
      ['A', 'B'] ['C'] rfl rfl rfl).1

-- A failing pick leaves the worker unchanged: every `False`-returning
-- path of `pick_item` exits before assigning either hand.
lemma pick_item_fail (p : Product) (w : Worker) (item : Str)
    (h : (pick_item p w item).2 = false) : pick_item p w item = (w, false) := by
  rcases hres : pick_item p w item with ⟨w', b⟩
  rw [hres] at h
  dsimp only at h
  subst h
  have hw : w' = w := by
    unfold pick_item at hres
    repeat' split at hres
    all_goals simp_all
  rw [hw]

/-- C10: in the scheduler's per-slot worker loop, when the cached slot
item is non-empty and a worker's pick attempt fails (with that worker
ineligible to assemble), the loop over the slot's workers is exited:
the state is untouched and every remaining co-located worker is returned
unchanged — no assemble, release, pick or holds-flag update happens for
any of them in that tick. -/
theorem failed_pick_skips_remaining_workers (ctx : Ctx) (i : Nat) (it : Str)
    (s : SimState) (w : Worker) (rest : List Worker)
    (ha : hands_occupied w = false ∨ w.holds_finished_product = true)
    (hp : (pick_item ctx.product w it).2 = false) :
    processWorkers ctx i (some it) s (w :: rest) = .ok (s, w :: rest) := by
  have hassemble : assemble ctx w s = (w, s, none) := by
    unfold assemble
    rcases ha with h | h <;> simp [h]
  have hpk := pick_item_fail ctx.product w it hp
  simp only [processWorkers, hassemble, hpk]

/-- Witness for C10: a worker with both hands full cannot pick, so its
failed pick returns the whole slot queue unchanged. -/
theorem failed_pick_skips_remaining_workers_witness :
    (hands_occupied
        { left_hand := some ['A'], right_hand := some ['B']
          assembly_time := 0, holds_finished_product := true } = false ∨
      Worker.holds_finished_product
        { left_hand := some ['A'], right_hand := some ['B']
          assembly_time := 0, holds_finished_product := true } = true) ∧
    processWorkers ctxEmpty 0 (some ['C']) (SimState.init 1 pABC 5 [])
        [{ left_hand := some ['A'], right_hand := some ['B']
           assembly_time := 0, holds_finished_product := true }, Worker.init 3] =
      .ok (SimState.init 1 pABC 5 [],
        [{ left_hand := some ['A'], right_hand := some ['B']
           assembly_time := 0, holds_finished_product := true }, Worker.init 3]) :=
  ⟨by decide,
   failed_pick_skips_remaining_workers ctxEmpty 0 ['C'] (SimState.init 1 pABC 5 [])
     { left_hand := some ['A'], right_hand := some ['B']
       assembly_time := 0, holds_finished_product := true }
     [Worker.init 3] (by decide) (by rfl)⟩
